import Mathlib

/-!
# Verification of the error-resolution orchestration core

Shallow embedding of the remediation orchestration engine of this repository:

* `ExecutionOrchestrator` (src/src/error-resolution/core/ExecutionOrchestrator.ts):
  configuration defaulting, phase planning (`createExecutionPhases`), the
  execute-with-retry loop (`executePhaseWithRetry`), backup creation
  (`createBackup`), rollback (`performRollback`) and the top-level run
  (`executeOrchestration`).
* `ValidationEngine` (same file, second module): the `validate` loop with its
  fail-fast handling of required checks, summary aggregation and
  `generateRecommendations`.
* The diagnostic-line parser `parseErrors`
  (src/unnamed/part_000, `AdvancedFinalTypeScriptErrorFixer.parseErrors`;
  the parser in src/unnamed/part_003 differs only in allowing extra
  whitespace around the literal tokens).

The file system is modelled as an association list of (path, byte content)
pairs plus the list of directories that exist; fixers (external per the spec)
are modelled as functions from attempt number and file system to an outcome
(a returned `ExecutionResult` or a thrown exception message, together with the
possibly mutated file system).  Wall-clock times (`executionTime`, timeout
racing) are elided: a timeout of the real code surfaces as a thrown outcome of
the fixer oracle, exactly how `executeWithTimeout` delivers it to
`executePhaseWithRetry`.
-/

namespace ErrorResolution

/-! ## Data model -/

/-- Root-cause categories of analyzed errors.  The enum `ErrorRootCause` is
declared in `ErrorAnalyzer.ts`, which is not part of this snapshot; the
constructors are the ones the orchestrator references (`SYNTAX`, `IMPORT`,
`TYPE`) plus the remaining categories named by the spec (§3:
`Syntax | Import | Type | Unused | Other`). -/
inductive ErrorRootCause where
  | SYNTAX
  | IMPORT
  | TYPE
  | UNUSED
  | OTHER
deriving DecidableEq, Repr

/-- The `category` object carried by an `AnalyzedError`; the orchestrator only
reads `category.rootCause`. -/
structure ErrorCategory where
  rootCause : ErrorRootCause
deriving DecidableEq, Repr

/-- An analyzed diagnostic record, as consumed by the orchestrator
(`error.file`, `error.category.rootCause`); remaining fields per spec §3. -/
structure AnalyzedError where
  file : String
  line : Nat
  column : Nat
  code : String
  message : String
  category : ErrorCategory
deriving DecidableEq, Repr

/-- `ExecutionResult` of ExecutionOrchestrator.ts (lines 15-22).
`executionTime` and the `any`-typed `details` are elided (wall-clock time and
unstructured data play no role in the claims). -/
structure ExecutionResult where
  success : Bool
  message : String
  errorCount : Option Nat := none
  fixedCount : Option Nat := none
deriving DecidableEq, Repr

/-- `OrchestrationConfig` (lines 24-32). -/
structure OrchestrationConfig where
  timeoutSeconds : Nat
  maxRetries : Nat
  backupEnabled : Bool
  validationEnabled : Bool
  rollbackOnFailure : Bool
  continueOnValidationFailure : Bool
  dryRun : Bool
deriving DecidableEq, Repr

/-- The `Partial<OrchestrationConfig>` argument of the constructor: each
option may be absent. -/
structure PartialOrchestrationConfig where
  timeoutSeconds : Option Nat := none
  maxRetries : Option Nat := none
  backupEnabled : Option Bool := none
  validationEnabled : Option Bool := none
  rollbackOnFailure : Option Bool := none
  continueOnValidationFailure : Option Bool := none
  dryRun : Option Bool := none
deriving DecidableEq, Repr

/-- The constructor (lines 39-49): spread of the supplied partial
configuration over the literal defaults `{timeoutSeconds: 600, maxRetries: 2,
backupEnabled: true, validationEnabled: true, rollbackOnFailure: true,
continueOnValidationFailure: false, dryRun: false}` — a supplied key
overrides, an absent key keeps the default. -/
def mkConfig (p : PartialOrchestrationConfig) : OrchestrationConfig :=
  { timeoutSeconds := p.timeoutSeconds.getD 600
    maxRetries := p.maxRetries.getD 2
    backupEnabled := p.backupEnabled.getD true
    validationEnabled := p.validationEnabled.getD true
    rollbackOnFailure := p.rollbackOnFailure.getD true
    continueOnValidationFailure := p.continueOnValidationFailure.getD false
    dryRun := p.dryRun.getD false }

/-! ## File-system model

Paths are strings; the store maps a path to its byte content (modelled as a
`String`).  Directory existence is tracked separately because
`createBackup` creates the backup directory with `fs.promises.mkdir` and
`performRollback` guards on `directoryExists`. -/

/-- A file system: files as an insertion-ordered association list
path ↦ content, plus the set (list) of directories that exist. -/
structure FileSystem where
  files : List (String × String)
  dirs : List String
deriving DecidableEq, Repr

/-- Content of a file, if it exists. -/
def lookupFile (p : String) (fs : FileSystem) : Option String :=
  fs.files.lookup p

/-- `fs.promises.access`-based existence check (`fileExists`). -/
def fileExists (p : String) (fs : FileSystem) : Bool :=
  (lookupFile p fs).isSome

/-- `fs.promises.stat(...).isDirectory()`-based check (`directoryExists`). -/
def directoryExists (p : String) (fs : FileSystem) : Bool :=
  fs.dirs.contains p

/-- Update an association list in place (overwrite an existing key, append a
new one at the end — preserving directory-listing order for new files). -/
def setAssoc (k v : String) : List (String × String) → List (String × String)
  | [] => [(k, v)]
  | (k', v') :: rest =>
      if k = k' then (k, v) :: rest else (k', v') :: setAssoc k v rest

/-- Write (create or overwrite) a file. -/
def writeFile (p c : String) (fs : FileSystem) : FileSystem :=
  { fs with files := setAssoc p c fs.files }

/-- `fs.promises.copyFile src dst`: overwrite `dst` with the content of
`src` (no-op if `src` is missing — in the modelled flows the source always
exists; the real call would throw and the surrounding code swallows it). -/
def copyFile (src dst : String) (fs : FileSystem) : FileSystem :=
  match lookupFile src fs with
  | some c => writeFile dst c fs
  | none => fs

/-- `fs.promises.mkdir(p, {recursive: true})`: record that `p` now exists
(ancestor directories are not tracked individually). -/
def mkdirp (p : String) (fs : FileSystem) : FileSystem :=
  { fs with dirs := if fs.dirs.contains p then fs.dirs else fs.dirs ++ [p] }

/-- Split a character list on a separator character. -/
def splitOnChar (sep : Char) : List Char → List (List Char)
  | [] => [[]]
  | c :: rest =>
      match splitOnChar sep rest with
      | [] => [[]]
      | l :: ls => if c = sep then [] :: l :: ls else (c :: l) :: ls

/-- Join character lists with a separator character. -/
def joinChar (sep : Char) : List (List Char) → List Char
  | [] => []
  | [l] => l
  | l :: ls => l ++ sep :: joinChar sep ls

/-- `path.basename`: the last `/`-separated component. -/
def basenameOf (p : String) : String :=
  String.mk ((splitOnChar '/' p.toList).getLastD [])

/-- The directory part of a path (everything before the last `/`). -/
def dirnameOf (p : String) : String :=
  String.mk (joinChar '/' (splitOnChar '/' p.toList).dropLast)

/-- `path.join(a, b)` for the simple (already normalized) paths used here. -/
def pathJoin (a b : String) : String :=
  a ++ "/" ++ b

/-- `fs.promises.readdir dir`: names of the files directly inside `dir`, in
insertion order. -/
def readdir (dir : String) (fs : FileSystem) : List String :=
  fs.files.filterMap fun kv =>
    if dirnameOf kv.1 = dir then some (basenameOf kv.1) else none

/-- `[...new Set(l)]`: deduplicate keeping first occurrences. -/
def dedupFirst (l : List String) : List String :=
  go [] l
where
  go (seen : List String) : List String → List String
    | [] => []
    | x :: xs =>
        if seen.contains x then go seen xs else x :: go (seen ++ [x]) xs

/-! ## Phases and the retry loop -/

/-- Outcome of one invocation of a phase's `executeFunction` as delivered by
`executeWithTimeout` (lines 214-225): either the promise resolves with an
`ExecutionResult`, or it rejects (a thrown fixer exception, or the synthetic
`Operation timed out` rejection of the racing timer).  Either way the fixer
may have mutated the file system first. -/
inductive FixerOutcome where
  | returns (r : ExecutionResult) (fs : FileSystem)
  | throws (msg : String) (fs : FileSystem)

/-- A phase's `executeFunction`, as an oracle indexed by the attempt number
(successive calls of the same closure may behave differently) and the current
file system. -/
def FixerFn : Type :=
  Nat → FileSystem → FixerOutcome

/-- An invocation that does not succeed: it either throws or returns a result
with `success = false`. -/
def outcomeFails : FixerOutcome → Bool
  | .returns r _ => !r.success
  | .throws _ _ => true

/-- `ExecutionPhase` (lines 7-13).  `cause` and `errors` record which error
group the phase was created for (the closure argument of `executeFunction`
in the source); `executeFunction` itself is the fixer oracle. -/
structure ExecutionPhase where
  name : String
  priority : Nat
  timeout : Nat
  retries : Nat
  cause : ErrorRootCause
  errors : List AnalyzedError
  executeFunction : FixerFn

/-- The loop body of `executePhaseWithRetry` (lines 179-209).
`remaining` counts the attempts still allowed (the loop runs
`attempt = 1 .. retries + 1`, so the last attempt is `remaining = 1`);
`calls` counts fixer invocations performed so far (ghost instrumentation).
`remaining = 0` is the statement after the loop, line 205 — unreachable from
`executePhaseWithRetry` since `retries + 1 ≥ 1`. -/
def retryGo (name : String) (fixer : FixerFn) :
    Nat → Nat → FileSystem → Nat → ExecutionResult × FileSystem × Nat
  | 0, _, fs, calls =>
      ({ success := false, message := name ++ " exhausted all retry attempts" },
        fs, calls)
  | remaining + 1, attempt, fs, calls =>
      match fixer attempt fs with
      | .returns r fs' =>
          if r.success then (r, fs', calls + 1)
          else if remaining = 0 then (r, fs', calls + 1)
          else retryGo name fixer remaining (attempt + 1) fs' (calls + 1)
      | .throws msg fs' =>
          if remaining = 0 then
            ({ success := false, message := name ++ " failed: " ++ msg },
              fs', calls + 1)
          else retryGo name fixer remaining (attempt + 1) fs' (calls + 1)

/-- `executePhaseWithRetry` (lines 179-209): run the fixer up to
`retries + 1` times, returning the first successful result, or the last
failure.  Returns (result, final file system, number of fixer invocations). -/
def executePhaseWithRetry (phase : ExecutionPhase) (fs : FileSystem) :
    ExecutionResult × FileSystem × Nat :=
  retryGo phase.name phase.executeFunction (phase.retries + 1) 1 fs 0

/-! ## Backup and rollback -/

/-- `createBackup` (lines 247-277): on `dryRun` report only; otherwise create
the backup directory and copy each distinct existing affected file into it
*flat*, under its basename.  Returns the result and the new file system. -/
def createBackup (cfg : OrchestrationConfig) (backupPath : String)
    (errFiles : List String) (fs : FileSystem) : ExecutionResult × FileSystem :=
  let files := dedupFirst errFiles
  if cfg.dryRun then
    ({ success := true
       message := "Dry run: Would backup " ++ toString files.length ++ " files" },
      fs)
  else
    let fs1 := mkdirp backupPath fs
    let step := fun (acc : Nat × FileSystem) (f : String) =>
      if fileExists f acc.2 then
        (acc.1 + 1, copyFile f (pathJoin backupPath (basenameOf f)) acc.2)
      else acc
    let res := files.foldl step (0, fs1)
    ({ success := true
       message := "Backed up " ++ toString res.1 ++ " files to " ++ backupPath },
      res.2)

/-- `performRollback` (lines 372-393): if the backup directory exists, list
it and copy every entry back to `path.join(process.cwd(), entryName)` —
i.e. to the *basename* of the backed-up file resolved against the working
directory, not to the file's original location — skipping targets that do
not currently exist. -/
def performRollback (cwd backupPath : String) (fs : FileSystem) : FileSystem :=
  if directoryExists backupPath fs then
    (readdir backupPath fs).foldl
      (fun acc name =>
        let backupFilePath := pathJoin backupPath name
        let originalPath := pathJoin cwd name
        if fileExists originalPath acc then
          copyFile backupFilePath originalPath acc
        else acc)
      fs
  else fs

/-! ## The built-in fix routines and phase planning -/

/-- `executeSyntaxFixes` / `executeImportFixes` / `executeTypeFixes`
(lines 282-338), merged over the `cause` tag.  Each early-returns a dry-run
report when `cfg.dryRun`, and otherwise reports success with a *simulated*
fixed count `min n ⌊n·ratio⌋` (ratio 0.8 / 0.6 / 0.7; the JS float product
agrees with exact rational arithmetic at every count used in a theorem
below, in particular at 0).  None of them touches any file. -/
def stubFix (cfg : OrchestrationConfig) (cause : ErrorRootCause)
    (errs : List AnalyzedError) : ExecutionResult :=
  let n := errs.length
  match cause with
  | .SYNTAX =>
      if cfg.dryRun then
        { success := true
          message := "Dry run: Would fix " ++ toString n ++ " syntax errors" }
      else
        { success := true
          message := "Processed " ++ toString n ++ " syntax errors"
          fixedCount := some (min n (n * 8 / 10)) }
  | .IMPORT =>
      if cfg.dryRun then
        { success := true
          message := "Dry run: Would fix " ++ toString n ++ " import errors" }
      else
        { success := true
          message := "Processed " ++ toString n ++ " import errors"
          fixedCount := some (min n (n * 6 / 10)) }
  | .TYPE =>
      if cfg.dryRun then
        { success := true
          message := "Dry run: Would fix " ++ toString n ++ " type errors" }
      else
        { success := true
          message := "Processed " ++ toString n ++ " type errors"
          fixedCount := some (min n (n * 7 / 10)) }
  | .UNUSED => { success := true, message := "" }
  | .OTHER => { success := true, message := "" }

/-- Wrap a pure `ExecutionResult` as a fixer that never mutates the file
system and never throws (the shape of every built-in fix routine). -/
def pureFixer (r : ExecutionResult) : FixerFn :=
  fun _ fs => .returns r fs

/-- `groupErrorsByRootCause` (lines 162-174): the group of a root cause is
the sub-list of errors with that cause, in input order. -/
def groupErrorsByRootCause (cause : ErrorRootCause)
    (errors : List AnalyzedError) : List AnalyzedError :=
  errors.filter fun e => e.category.rootCause = cause

/-- Stable insertion of a phase before the first strictly higher priority
(the behaviour of `Array.prototype.sort` with comparator
`(a, b) => a.priority - b.priority`). -/
def insertByPriority (p : ExecutionPhase) :
    List ExecutionPhase → List ExecutionPhase
  | [] => [p]
  | q :: qs =>
      if p.priority < q.priority then p :: q :: qs
      else q :: insertByPriority p qs

/-- `phases.sort((a, b) => a.priority - b.priority)` as a stable insertion
sort. -/
def sortByPriority (l : List ExecutionPhase) : List ExecutionPhase :=
  l.foldr insertByPriority []

/-- `createExecutionPhases` (lines 117-157): one phase for each of the
*syntax*, *import* and *type* groups that is non-empty — and only those;
errors of causes `UNUSED` and `OTHER` yield no phase — then sorted by
ascending priority. -/
def createExecutionPhases (cfg : OrchestrationConfig)
    (errors : List AnalyzedError) : List ExecutionPhase :=
  let gSyn := groupErrorsByRootCause .SYNTAX errors
  let gImp := groupErrorsByRootCause .IMPORT errors
  let gTyp := groupErrorsByRootCause .TYPE errors
  sortByPriority
    ((if 0 < gSyn.length then
        [{ name := "Syntax Fixes", priority := 1, timeout := 300, retries := 2
           cause := .SYNTAX, errors := gSyn
           executeFunction := pureFixer (stubFix cfg .SYNTAX gSyn) }]
      else []) ++
     (if 0 < gImp.length then
        [{ name := "Import Fixes", priority := 2, timeout := 180, retries := 1
           cause := .IMPORT, errors := gImp
           executeFunction := pureFixer (stubFix cfg .IMPORT gImp) }]
      else []) ++
     (if 0 < gTyp.length then
        [{ name := "Type Fixes", priority := 3, timeout := 240, retries := 1
           cause := .TYPE, errors := gTyp
           executeFunction := pureFixer (stubFix cfg .TYPE gTyp) }]
      else []))

/-! ## The orchestration run -/

/-- Terminal state of a run, per the spec's state machine (§4.3): the success
return of `executeOrchestration` is `Completed`; the catch branch is
`RolledBack` when it performed a rollback (`rollbackOnFailure ∧
backupEnabled`) and `Failed` otherwise. -/
inductive TerminalState where
  | Completed
  | RolledBack
  | Failed
deriving DecidableEq, Repr

/-- `performFinalValidation` (lines 343-367): shells out to `tsc`; modelled
on the externally captured list of output lines containing `- error TS`
(empty when the compile is clean).  It catches every error itself, so it
never throws into `executeOrchestration` — and its result is discarded there
(line 82 neither stores nor checks it). -/
def performFinalValidation (tscErrLines : List String) : ExecutionResult :=
  { success := tscErrLines.isEmpty
    message := "Validation found " ++ toString tscErrLines.length ++
      " remaining errors"
    errorCount := some tscErrLines.length }

/-- What a whole run produces: the returned `ExecutionResult`, the
accumulated `executionHistory`, the final file system, and the terminal
state of the spec's state machine. -/
structure RunOutcome where
  result : ExecutionResult
  history : List ExecutionResult
  fs : FileSystem
  terminal : TerminalState
deriving Repr

/-- `exec.reduce((sum, r) => sum + (r.fixedCount || 0), 0)` (line 86). -/
def sumFixed (hist : List ExecutionResult) : Nat :=
  hist.foldl (fun s r => s + r.fixedCount.getD 0) 0

/-- The phase loop of `executeOrchestration` (lines 71-78): run each phase
with retry, append its result to the history, and throw (returning the
thrown message) as soon as a phase fails while
`continueOnValidationFailure` is false. -/
def runPhases (cont : Bool) :
    List ExecutionPhase → FileSystem → List ExecutionResult →
    Option String × FileSystem × List ExecutionResult
  | [], fs, hist => (none, fs, hist)
  | p :: rest, fs, hist =>
      let step := executePhaseWithRetry p fs
      let hist' := hist ++ [step.1]
      if !step.1.success && !cont then
        (some ("Phase " ++ p.name ++ " failed: " ++ step.1.message),
          step.2.1, hist')
      else runPhases cont rest step.2.1 hist'

/-- The body of `executeOrchestration` (lines 57-112), generic in the phase
list exactly as the source loop is: create the backup when enabled (the
modelled file system cannot fail, so the `BackupFailure` path does not
arise), run the phases, and either return the success summary (the final
validation's result being discarded, line 82) or — in the catch branch —
roll back when `rollbackOnFailure && backupEnabled` and return the failure
result. -/
def orchestrate (cfg : OrchestrationConfig) (cwd backupPath : String)
    (errFiles : List String) (phases : List ExecutionPhase)
    (tscErrLines : List String) (fs0 : FileSystem) : RunOutcome :=
  let fs1 := if cfg.backupEnabled then
    (createBackup cfg backupPath errFiles fs0).2 else fs0
  match runPhases cfg.continueOnValidationFailure phases fs1 [] with
  | (none, fs2, hist) =>
      let _discardedValidation :=
        if cfg.validationEnabled then some (performFinalValidation tscErrLines)
        else none
      let totalFixed := sumFixed hist
      { result :=
          { success := true
            message := "Orchestration completed successfully. Fixed " ++
              toString totalFixed ++ " errors"
            fixedCount := some totalFixed }
        history := hist
        fs := fs2
        terminal := .Completed }
  | (some errMsg, fs2, hist) =>
      let failure : ExecutionResult :=
        { success := false, message := "Orchestration failed: " ++ errMsg }
      if cfg.rollbackOnFailure && cfg.backupEnabled then
        { result := failure, history := hist
          fs := performRollback cwd backupPath fs2
          terminal := .RolledBack }
      else
        { result := failure, history := hist, fs := fs2, terminal := .Failed }

/-- `executeOrchestration(errors)` (lines 57-112): the backup covers the
union of the errors' files, and the phases are the ones planned by
`createExecutionPhases`. -/
def executeOrchestration (cfg : OrchestrationConfig) (cwd backupPath : String)
    (errors : List AnalyzedError) (tscErrLines : List String)
    (fs0 : FileSystem) : RunOutcome :=
  orchestrate cfg cwd backupPath (errors.map (·.file))
    (createExecutionPhases cfg errors) tscErrLines fs0

/-! ## ValidationEngine

Second module of ExecutionOrchestrator.ts (the `ValidationEngine` class).
`runValidationCheck` shells out with `execSync(check.command)`; whether the
command exits 0 within its timeout, and the message derived from its output
by `analyzeValidationError`, are determined by the external process, so they
are abstracted as an oracle `exec : ValidationCheck → Bool × String`.
The `validate` control flow — the fail-fast loop and the aggregation — is
translated from the source. -/

/-- The `type` field of a `ValidationCheck`
(`'syntax' | 'lint' | 'build' | 'test'`). -/
inductive CheckType where
  | checkSyntax
  | checkLint
  | checkBuild
  | checkTest
deriving DecidableEq, Repr

/-- `ValidationCheck` (lines 428-434 of the concatenated source). -/
structure ValidationCheck where
  name : String
  type : CheckType
  command : String
  timeout : Nat
  required : Bool
deriving DecidableEq, Repr

/-- `ValidationResult` (lines 436-442); `executionTime`/`details` elided. -/
structure ValidationResult where
  check : ValidationCheck
  success : Bool
  message : String
deriving DecidableEq, Repr

/-- `ValidationSummary` (lines 444-452); `totalTime` elided. -/
structure ValidationSummary where
  overallSuccess : Bool
  totalChecks : Nat
  passedChecks : Nat
  failedChecks : Nat
  results : List ValidationResult
  recommendations : List String
deriving DecidableEq, Repr

/-- The oracle describing the external processes run by
`runValidationCheck`: success flag and derived message per check. -/
def CheckExec : Type :=
  ValidationCheck → Bool × String

/-- `runValidationCheck` (lines 521-561) over the oracle. -/
def runValidationCheck (exec : CheckExec) (check : ValidationCheck) :
    ValidationResult :=
  { check := check, success := (exec check).1, message := (exec check).2 }

/-- The loop of `validate` (lines 488-497): run the checks in list order,
pushing each result; `break` after the first result that fails with
`check.required` (later checks are never run). -/
def valLoop (exec : CheckExec) : List ValidationCheck → List ValidationResult
  | [] => []
  | c :: rest =>
      let r := runValidationCheck exec c
      if !r.success && c.required then [r]
      else r :: valLoop exec rest

/-- One iteration of the recommendation loop of `generateRecommendations`
(lines 672-692): a failing check pushes the canned recommendation for its
type — a failing `test` check pushes nothing (the `switch` has no case for
it). -/
def recStep (acc : List String) (r : ValidationResult) : List String :=
  if r.success then acc
  else
    match r.check.type with
    | .checkSyntax => acc ++
        ["🔧 Fix TypeScript syntax errors first - they prevent other tools from working properly"]
    | .checkLint => acc ++
        ["📝 Run ESLint with --fix flag to automatically fix common style issues"]
    | .checkBuild => acc ++
        ["🏗️ Build issues may indicate missing dependencies or configuration problems"]
    | .checkTest => acc

/-- `generateRecommendations` (lines 669-699): one canned recommendation per
failing check by type, and the success message when the collected list is
empty. -/
def generateRecommendations (results : List ValidationResult) : List String :=
  let recs := results.foldl recStep []
  if recs.isEmpty then
    ["✅ All validation checks passed - project is in good shape!"]
  else recs

/-- `validate` (lines 482-516): run the loop, then aggregate
`passedChecks` (count of successes), `failedChecks` (the rest),
`overallSuccess` (every recorded result passed or was not required) and the
recommendations. -/
def validate (exec : CheckExec) (checks : List ValidationCheck) :
    ValidationSummary :=
  let results := valLoop exec checks
  let passedChecks := (results.filter fun r => r.success).length
  let failedChecks := results.length - passedChecks
  let overallSuccess := results.all fun r => r.success || !r.check.required
  { overallSuccess := overallSuccess
    totalChecks := results.length
    passedChecks := passedChecks
    failedChecks := failedChecks
    results := results
    recommendations := generateRecommendations results }

/-- The engine's built-in check list (lines 455-477). -/
def defaultChecks : List ValidationCheck :=
  [ { name := "TypeScript Compilation", type := .checkSyntax
      command := "npx tsc --noEmit --skipLibCheck", timeout := 60
      required := true }
  , { name := "ESLint Check", type := .checkLint
      command := "npx eslint src --ext .ts,.tsx --max-warnings 0", timeout := 30
      required := false }
  , { name := "Build Check", type := .checkBuild
      command := "npm run build", timeout := 120
      required := false } ]

/-! ## Diagnostic-line parsing

`AdvancedFinalTypeScriptErrorFixer.parseErrors` (src/unnamed/part_000,
lines 65-86): split the captured tool output on newlines; for each line that
`.includes(': error TS')`, match the regular expression
`^(.+)\((\d+),(\d+)\): error (TS\d+): (.+)$` and, on a match, record
`{file: m1.trim(), line: parseInt(m2), column: parseInt(m3), code: m4,
message: m5.trim()}`; non-matching lines are skipped.  The regex is embedded
by its backtracking semantics: the metacharacter `.` (no `s` flag) matches
every character except the four ECMAScript line terminators (LF, CR,
U+2028, U+2029), captured by `isDotChar`; the leading greedy `(.+)` makes
the match split at the *rightmost* `(` whose non-empty, all-dot prefix and
completing tail succeed; each `\d+` is a maximal digit run (it must be
followed by the next literal, since a shorter run would end at a digit);
`(.+)$` takes the whole rest of the line, which must be non-empty and
all-dot.  `trim()` strips the full ECMA-262 WhiteSpace ∪ LineTerminator
set.  Everything is modelled over `List Char`. -/

/-- One diagnostic record: both the synthetic input of the round-trip
property and the parser's output (`parseErrors` pushes exactly these five
fields). -/
structure TsDiag where
  file : List Char
  line : Nat
  column : Nat
  code : List Char
  message : List Char
deriving DecidableEq, Repr

/-- `parseInt` on an all-digit capture: left fold of decimal digits.  This
is exact for values below `2 ^ 53` (`Number.MAX_SAFE_INTEGER + 1`); above
that, the real `parseInt` rounds to the nearest IEEE double, so the
round-trip hypothesis `GoodDiag` bounds line and column accordingly. -/
def parseDigitsVal (ds : List Char) : Nat :=
  ds.foldl (fun a c => a * 10 + (c.toNat - 48)) 0

/-- Decimal digit characters of `n`, most significant first, no leading
zeros — accumulator/fuel form so that it evaluates by kernel reduction
(`fuel ≥ n` always suffices because `n / 10 < n`). -/
def digitsReprAux : Nat → Nat → List Char → List Char
  | 0, n, acc => Char.ofNat (48 + n % 10) :: acc
  | fuel + 1, n, acc =>
      if n < 10 then Char.ofNat (48 + n) :: acc
      else digitsReprAux fuel (n / 10) (Char.ofNat (48 + n % 10) :: acc)

/-- Decimal representation of a natural number (how a JS number ≥ 0 prints
inside a template literal). -/
def digitsRepr (n : Nat) : List Char :=
  digitsReprAux n n []

/-- Formatting one synthetic diagnostic per the grammar of spec §6:
`<path>(<line>,<col>): error <CODE>: <message>`. -/
def formatDiag (d : TsDiag) : List Char :=
  d.file ++ '(' :: digitsRepr d.line ++ ',' :: digitsRepr d.column ++
    ')' :: ':' :: ' ' :: 'e' :: 'r' :: 'r' :: 'o' :: 'r' :: ' ' :: d.code ++
    ':' :: ' ' :: d.message

/-- Formatting `N` synthetic diagnostics, one per line. -/
def formatDiags (ds : List TsDiag) : List Char :=
  joinChar '\n' (ds.map formatDiag)

/-- Does `cs` start with `pat`? -/
def startsWithSeq : List Char → List Char → Bool
  | [], _ => true
  | _ :: _, [] => false
  | p :: ps, c :: cs => p = c && startsWithSeq ps cs

/-- `String.prototype.includes`: does `cs` contain `pat` as a contiguous
run? -/
def includesSeq (pat : List Char) : List Char → Bool
  | [] => pat.isEmpty
  | c :: cs => startsWithSeq pat (c :: cs) || includesSeq pat cs

/-- The literal `': error TS'` of the `.includes` pre-filter. -/
def errorTsPat : List Char :=
  [':', ' ', 'e', 'r', 'r', 'o', 'r', ' ', 'T', 'S']

/-- The code points stripped by `String.prototype.trim` — ECMA-262
TrimString uses WhiteSpace ∪ LineTerminator: TAB, LF, VT, FF, CR, SP,
NBSP (U+00A0), ZWNBSP (U+FEFF), the Space_Separator characters U+1680,
U+2000..U+200A, U+202F, U+205F, U+3000, and the line terminators U+2028,
U+2029. -/
def isWsChar (c : Char) : Bool :=
  c = ' ' || c = '\t' || c = '\n' || c = '\r' ||
  c.toNat = 0xB || c.toNat = 0xC || c.toNat = 0xA0 || c.toNat = 0xFEFF ||
  c.toNat = 0x1680 || (0x2000 ≤ c.toNat && c.toNat ≤ 0x200A) ||
  c.toNat = 0x2028 || c.toNat = 0x2029 || c.toNat = 0x202F ||
  c.toNat = 0x205F || c.toNat = 0x3000

/-- What the regex metacharacter `.` matches (no `s` flag): any character
except the ECMAScript line terminators LF, CR, U+2028, U+2029. -/
def isDotChar (c : Char) : Bool :=
  !(c = '\n' || c = '\r' || c.toNat = 0x2028 || c.toNat = 0x2029)

/-- `String.prototype.trim` on a character list. -/
def trimChars (cs : List Char) : List Char :=
  ((cs.dropWhile isWsChar).reverse.dropWhile isWsChar).reverse

/-- Maximal leading digit run and the rest (`\d+` against what follows). -/
def spanDigits : List Char → List Char × List Char
  | [] => ([], [])
  | c :: cs =>
      if c.isDigit then
        let r := spanDigits cs
        (c :: r.1, r.2)
      else ([], c :: cs)

/-- Consume an expected literal character sequence (the fixed parts of the
regex), returning the rest on success. -/
def stripPrefixSeq : List Char → List Char → Option (List Char)
  | [], cs => some cs
  | _ :: _, [] => none
  | p :: ps, c :: cs => if c = p then stripPrefixSeq ps cs else none

/-- The literal `): error TS` between the column capture and the code
digits. -/
def litErrorTS : List Char :=
  [')', ':', ' ', 'e', 'r', 'r', 'o', 'r', ' ', 'T', 'S']

/-- The literal `: ` between the code and the message. -/
def litColonSpace : List Char :=
  [':', ' ']

/-- Match `(\d+),(\d+)\): error (TS\d+): (.+)$` against the characters
after a candidate `(`: returns the captures (line digits, column digits,
code digits, message).  Each `\d+` is a maximal digit run, each literal is
consumed verbatim, and `(.+)$` requires a non-empty rest of line made of
dot-matching characters (a `\r`, U+2028 or U+2029 in the message makes the
real regex fail). -/
def matchTail (cs : List Char) :
    Option (List Char × List Char × List Char × List Char) :=
  let s1 := spanDigits cs
  if s1.1.isEmpty then none
  else
    match stripPrefixSeq [','] s1.2 with
    | none => none
    | some r2 =>
        let s2 := spanDigits r2
        if s2.1.isEmpty then none
        else
          match stripPrefixSeq litErrorTS s2.2 with
          | none => none
          | some r4 =>
              let s3 := spanDigits r4
              if s3.1.isEmpty then none
              else
                match stripPrefixSeq litColonSpace s3.2 with
                | none => none
                | some msg =>
                    if msg.isEmpty then none
                    else if msg.all isDotChar then some (s1.1, s2.1, s3.1, msg)
                    else none

/-- Build the record pushed by `parseErrors` from the captures: `trim` the
file and message, `parseInt` the numbers, keep the code string (`TS` plus
its digits). -/
def mkParsed (pre : List Char)
    (t : List Char × List Char × List Char × List Char) : TsDiag :=
  { file := trimChars pre
    line := parseDigitsVal t.1
    column := parseDigitsVal t.2.1
    code := 'T' :: 'S' :: t.2.2.1
    message := trimChars t.2.2.2 }

/-- The backtracking search of the leading greedy `(.+)`: try every `(` as
the split point, rightmost first, requiring a non-empty prefix made of
dot-matching characters (the group `(.+)` itself cannot match a line
terminator, so a split whose prefix contains one is not viable). -/
def matchFrom (pre : List Char) : List Char → Option TsDiag
  | [] => none
  | c :: rest =>
      match matchFrom (pre ++ [c]) rest with
      | some d => some d
      | none =>
          if c = '(' then
            if pre.isEmpty then none
            else if pre.all isDotChar then (matchTail rest).map (mkParsed pre)
            else none
          else none

/-- Parse one line: the `.includes(': error TS')` pre-filter, then the
regex match. -/
def parseLine (line : List Char) : Option TsDiag :=
  if includesSeq errorTsPat line then matchFrom [] line else none

/-- `parseErrors` (part_000, lines 65-86): split on newlines, parse each
line, skip the lines that do not match. -/
def parseErrors (input : List Char) : List TsDiag :=
  (splitOnChar '\n' input).filterMap parseLine

/-- Is the code of the form `TS` followed by at least one digit — the only
shape `(TS\d+)` can capture? -/
def codeOkTS : List Char → Bool
  | a :: b :: ds => a == 'T' && b == 'S' && !ds.isEmpty && ds.all Char.isDigit
  | _ => false

/-- Hygiene conditions under which a synthetic diagnostic survives the
format–parse round trip: path and message are non-empty, consist of
dot-matching characters (no LF — one diagnostic per line — and no CR,
U+2028 or U+2029, which `.` rejects), contain no `(` (so the backtracking
`(.+)` cannot steal a longer prefix), and are invariant under the JS
`trim`; the code has the `TS<digits>` shape the regex insists on; line and
column stay below `2 ^ 53`, where `parseInt` is exact. -/
def GoodDiag (d : TsDiag) : Prop :=
  d.file ≠ [] ∧ d.file.all isDotChar = true ∧ '(' ∉ d.file ∧
  trimChars d.file = d.file ∧
  d.message ≠ [] ∧ d.message.all isDotChar = true ∧ '(' ∉ d.message ∧
  trimChars d.message = d.message ∧
  codeOkTS d.code = true ∧ d.line < 2 ^ 53 ∧ d.column < 2 ^ 53

instance (d : TsDiag) : Decidable (GoodDiag d) := by
  unfold GoodDiag
  infer_instance

/-! ## Concrete inputs used by the claim theorems -/

/-- An empty file system. -/
def emptyFs : FileSystem :=
  { files := [], dirs := [] }

/-- Default configuration: the constructor called with no argument. -/
def defaultCfg : OrchestrationConfig :=
  mkConfig {}

/-- The backup path used in concrete runs (in the real code
`cwd/.error-fix-backups/<timestamp>`). -/
def exBackupPath : String :=
  "/proj/.error-fix-backups/t"

/-- A project containing one nested source file. -/
def c1fs : FileSystem :=
  { files := [("/proj/src/a.ts", "orig")], dirs := [] }

/-- A fixer that first mutates the phase's file and then reports failure, on
every attempt. -/
def c1fixer : FixerFn :=
  fun _ fs =>
    .returns { success := false, message := "fixer failed" }
      (writeFile "/proj/src/a.ts" "mutated" fs)

/-- The phase whose fixer mutates `/proj/src/a.ts` and always fails. -/
def c1phase : ExecutionPhase :=
  { name := "Syntax Fixes", priority := 1, timeout := 300, retries := 2
    cause := .SYNTAX, errors := [], executeFunction := c1fixer }

/-- The C1 scenario: default configuration (backup, rollback on failure),
one phase over the nested file, fixer failing all `retries + 1` attempts. -/
def c1run : RunOutcome :=
  orchestrate defaultCfg "/proj" exBackupPath ["/proj/src/a.ts"] [c1phase] []
    c1fs

/-- A fixer that returns a failure result on every attempt without touching
any file. -/
def alwaysFailFixer : FixerFn :=
  fun _ fs => .returns { success := false, message := "still failing" } fs

/-- A phase with `retries = 2` whose fixer always fails. -/
def c2phase : ExecutionPhase :=
  { name := "Type Fixes", priority := 3, timeout := 240, retries := 2
    cause := .TYPE, errors := [], executeFunction := alwaysFailFixer }

/-- An analyzed error of the given root cause (all other fields fixed). -/
def errOfCause (c : ErrorRootCause) : AnalyzedError :=
  { file := "src/f.ts", line := 1, column := 1, code := "TSX", message := "m"
    category := { rootCause := c } }

/-- Errors of the three categories Unused, Syntax, Type, inserted in that
order — the input of the C3 priority-ordering test. -/
def c3errors : List AnalyzedError :=
  [errOfCause .UNUSED, errOfCause .SYNTAX, errOfCause .TYPE]

/-- Configuration with `rollbackOnFailure: false` and everything else
default (in particular `continueOnValidationFailure: false`). -/
def c4cfg : OrchestrationConfig :=
  mkConfig { rollbackOnFailure := some false }

/-- A phase that always fails (first phase of the C4 scenario). -/
def c4failPhase : ExecutionPhase :=
  { name := "Syntax Fixes", priority := 1, timeout := 300, retries := 0
    cause := .SYNTAX, errors := [], executeFunction := alwaysFailFixer }

/-- A phase that would succeed immediately (second phase of the C4
scenario — per the claim it should still run). -/
def c4okPhase : ExecutionPhase :=
  { name := "Type Fixes", priority := 3, timeout := 240, retries := 1
    cause := .TYPE, errors := []
    executeFunction := pureFixer { success := true, message := "ok" } }

/-- The C4 scenario: first phase exhausts its attempts while
`rollbackOnFailure` is false (so the claim's `otherwise` branch applies and
predicts that execution continues with `c4okPhase`). -/
def c4run : RunOutcome :=
  orchestrate c4cfg "/proj" exBackupPath [] [c4failPhase, c4okPhase] [] emptyFs

/-- The C5 scenario: a full run over zero diagnostics with the default
configuration, starting from an empty file system. -/
def c5run : RunOutcome :=
  executeOrchestration defaultCfg "/proj" exBackupPath [] [] emptyFs

/-- A default `ValidationResult` (used only as the `getLastD` fallback; its
`success = true` and `required = false` make it trivially non-blocking). -/
def dummyVR : ValidationResult :=
  { check := { name := "", type := .checkTest, command := "", timeout := 0
               required := false }
    success := true, message := "" }

/-- The success recommendation synthesized when no failing check contributed
one. -/
def allPassedRec : String :=
  "✅ All validation checks passed - project is in good shape!"

/-- A dry-run configuration (everything else default). -/
def c8cfg : OrchestrationConfig :=
  mkConfig { dryRun := some true }

/-- A diagnostic whose code `E7` is an alphanumeric token but not of the
`TS<digits>` shape the parser's regex requires. -/
def c6bad : TsDiag :=
  { file := "a.ts".toList, line := 1, column := 2, code := ['E', '7']
    message := "bad".toList }

/-- A well-formed synthetic diagnostic. -/
def c6d1 : TsDiag :=
  { file := "src/a.ts".toList, line := 12, column := 34
    code := "TS1005".toList, message := "comma expected".toList }

/-- A second well-formed synthetic diagnostic. -/
def c6d2 : TsDiag :=
  { file := "components/B.tsx".toList, line := 3, column := 1
    code := "TS2307".toList, message := "Cannot find module x".toList }

/-! ## Theorems -/

/-- **C9.** Constructing an orchestrator from any partial configuration:
every omitted option takes its documented default (timeoutSeconds 600,
maxRetries 2, backupEnabled true, validationEnabled true, rollbackOnFailure
true, continueOnValidationFailure false, dryRun false) and every supplied
option overrides its default. -/
theorem c9_config_defaults (p : PartialOrchestrationConfig) :
    (p.timeoutSeconds = none → (mkConfig p).timeoutSeconds = 600) ∧
    (∀ v, p.timeoutSeconds = some v → (mkConfig p).timeoutSeconds = v) ∧
    (p.maxRetries = none → (mkConfig p).maxRetries = 2) ∧
    (∀ v, p.maxRetries = some v → (mkConfig p).maxRetries = v) ∧
    (p.backupEnabled = none → (mkConfig p).backupEnabled = true) ∧
    (∀ v, p.backupEnabled = some v → (mkConfig p).backupEnabled = v) ∧
    (p.validationEnabled = none → (mkConfig p).validationEnabled = true) ∧
    (∀ v, p.validationEnabled = some v → (mkConfig p).validationEnabled = v) ∧
    (p.rollbackOnFailure = none → (mkConfig p).rollbackOnFailure = true) ∧
    (∀ v, p.rollbackOnFailure = some v → (mkConfig p).rollbackOnFailure = v) ∧
    (p.continueOnValidationFailure = none →
      (mkConfig p).continueOnValidationFailure = false) ∧
    (∀ v, p.continueOnValidationFailure = some v →
      (mkConfig p).continueOnValidationFailure = v) ∧
    (p.dryRun = none → (mkConfig p).dryRun = false) ∧
    (∀ v, p.dryRun = some v → (mkConfig p).dryRun = v) := by
  refine ⟨fun h => ?_, fun v h => ?_, fun h => ?_, fun v h => ?_,
    fun h => ?_, fun v h => ?_, fun h => ?_, fun v h => ?_,
    fun h => ?_, fun v h => ?_, fun h => ?_, fun v h => ?_,
    fun h => ?_, fun v h => ?_⟩ <;> simp [mkConfig, h]

/-- Witness for C9 at concrete partial configurations: an omitted
`timeoutSeconds` defaults to 600, a supplied one (60) and a supplied
`dryRun` (true) override. -/
theorem c9_config_defaults_witness :
    (mkConfig {}).timeoutSeconds = 600 ∧
    (mkConfig { timeoutSeconds := some 60 }).timeoutSeconds = 60 ∧
    (mkConfig { dryRun := some true }).dryRun = true :=
  ⟨(c9_config_defaults {}).1 rfl,
   (c9_config_defaults { timeoutSeconds := some 60 }).2.1 60 rfl,
   (c9_config_defaults { dryRun := some true }).2.2.2.2.2.2.2.2.2.2.2.2.2
     true rfl⟩

/-- The retry loop under a fixer that never succeeds: the result is a
failure and the fixer is invoked exactly once per allowed attempt. -/
theorem retryGo_always_fails (name : String) (fixer : FixerFn)
    (hfail : ∀ i fs, outcomeFails (fixer i fs) = true) :
    ∀ remaining attempt fs calls,
      (retryGo name fixer remaining attempt fs calls).1.success = false ∧
      (retryGo name fixer remaining attempt fs calls).2.2 =
        calls + remaining := by
  intro remaining
  induction remaining with
  | zero => intro attempt fs calls; simp [retryGo]
  | succ n ih =>
      intro attempt fs calls
      cases h : fixer attempt fs with
      | returns r fs' =>
          have hr : r.success = false := by
            have := hfail attempt fs
            rw [h] at this
            simpa [outcomeFails] using this
          by_cases hn : n = 0
          · subst hn; simp [retryGo, h, hr]
          · have hrec := ih (attempt + 1) fs' (calls + 1)
            simp only [retryGo, h, hr, hn, Bool.false_eq_true, if_false]
            refine ⟨hrec.1, ?_⟩
            rw [hrec.2]; omega
      | throws msg fs' =>
          by_cases hn : n = 0
          · subst hn; simp [retryGo, h]
          · have hrec := ih (attempt + 1) fs' (calls + 1)
            simp only [retryGo, h, hn, if_false]
            refine ⟨hrec.1, ?_⟩
            rw [hrec.2]; omega

/-- **C2.** A phase whose fixer fails (throws or reports `success: false`)
on every call is invoked exactly `phase.retries + 1` times by
`executePhaseWithRetry`, after which the phase's result is a failure — no
further invocation happens once the bound is reached. -/
theorem c2_retry_bound (phase : ExecutionPhase) (fs : FileSystem)
    (hfail : ∀ i fs', outcomeFails (phase.executeFunction i fs') = true) :
    (executePhaseWithRetry phase fs).1.success = false ∧
    (executePhaseWithRetry phase fs).2.2 = phase.retries + 1 := by
  have h := retryGo_always_fails phase.name phase.executeFunction hfail
    (phase.retries + 1) 1 fs 0
  simpa [executePhaseWithRetry] using h

/-- Witness for C2: a concrete phase with `retries = 2` and an
always-failing fixer is invoked exactly 3 times and ends in failure. -/
theorem c2_retry_bound_witness :
    (executePhaseWithRetry c2phase emptyFs).1.success = false ∧
    (executePhaseWithRetry c2phase emptyFs).2.2 = 3 :=
  c2_retry_bound c2phase emptyFs (fun _ _ => rfl)

/-- **C1.** Code bug: in the C1 scenario the run does end rolled back and
the snapshot does hold the pre-phase bytes (`orig`), but the rollback copies
the snapshot entry to `cwd/<basename>` instead of the file's original nested
path, so `/proj/src/a.ts` is left with the fixer's mutated content — the
claimed byte-exact restore of every snapshotted file does not happen. -/
theorem c1_rollback_misplaces_nested_files :
    c1run.terminal = TerminalState.RolledBack ∧
    lookupFile (pathJoin exBackupPath "a.ts") c1run.fs = some "orig" ∧
    lookupFile "/proj/src/a.ts" c1run.fs = some "mutated" := by
  decide

/-- **C3 counterexample.** For errors of categories Unused, Syntax, Type
(all three groups non-empty), the planner emits only two phases — `Syntax
Fixes` then `Type Fixes` — not one phase per non-empty category: Unused
errors are dropped without a phase. -/
theorem c3_counterexample_unused_dropped :
    0 < (groupErrorsByRootCause .UNUSED c3errors).length ∧
    0 < (groupErrorsByRootCause .SYNTAX c3errors).length ∧
    0 < (groupErrorsByRootCause .TYPE c3errors).length ∧
    (createExecutionPhases defaultCfg c3errors).map (fun p => p.name) =
      ["Syntax Fixes", "Type Fixes"] := by
  decide

/-- **C4 counterexample.** With `rollbackOnFailure: false` (so the claim's
`required ∧ rollbackOnFailure` condition is false and its `otherwise` branch
predicts continuing to the next phase), a failing first phase in fact aborts
the whole run: only one history entry is appended, the succeeding second
phase never executes, and the run terminates `Failed`. -/
theorem c4_counterexample_abort_without_rollback_flag :
    c4run.history.map (fun r => r.success) = [false] ∧
    c4run.terminal = TerminalState.Failed := by
  decide

/-- **C5 counterexample.** A full run over zero diagnostics does return
success with `fixedCount = 0` and terminal state Completed — but it is not
free of backup-store writes: with the default configuration
(`backupEnabled: true`) `createBackup` still creates the backup directory. -/
theorem c5_counterexample_backup_dir_created :
    c5run.result.success = true ∧
    c5run.result.fixedCount = some 0 ∧
    c5run.terminal = TerminalState.Completed ∧
    c5run.fs.dirs = [exBackupPath] := by
  decide

/-- **C3 amended.** For any input list of analyzed errors, the planner emits
one phase per non-empty category *among Syntax, Import and Type only*
(Unused and Other errors receive no phase), and the emitted list is ordered
by ascending fixed priority — Syntax (1), Import (2), Type (3) — depending
only on which categories are present, hence independent of the order of the
input errors. -/
theorem c3_amended_phase_order (cfg : OrchestrationConfig)
    (errors : List AnalyzedError) :
    (createExecutionPhases cfg errors).map (fun p => (p.name, p.priority)) =
      (if 0 < (groupErrorsByRootCause .SYNTAX errors).length then
        [("Syntax Fixes", 1)] else []) ++
      (if 0 < (groupErrorsByRootCause .IMPORT errors).length then
        [("Import Fixes", 2)] else []) ++
      (if 0 < (groupErrorsByRootCause .TYPE errors).length then
        [("Type Fixes", 3)] else []) := by
  unfold createExecutionPhases
  by_cases h1 : 0 < (groupErrorsByRootCause .SYNTAX errors).length <;>
    by_cases h2 : 0 < (groupErrorsByRootCause .IMPORT errors).length <;>
      by_cases h3 : 0 < (groupErrorsByRootCause .TYPE errors).length <;>
        simp [h1, h2, h3, sortByPriority, insertByPriority]

/-- The phase loop never stops when `continueOnValidationFailure` is true:
each phase's result is appended and execution moves to the next phase. -/
theorem runPhases_cons_continue (p : ExecutionPhase)
    (rest : List ExecutionPhase) (fs : FileSystem)
    (hist : List ExecutionResult) :
    runPhases true (p :: rest) fs hist =
      runPhases true rest (executePhaseWithRetry p fs).2.1
        (hist ++ [(executePhaseWithRetry p fs).1]) := by
  simp [runPhases]

/-- With `continueOnValidationFailure` false, a failing phase makes the loop
throw: the failure is appended and the remaining phases are dropped. -/
theorem runPhases_cons_abort (p : ExecutionPhase)
    (rest : List ExecutionPhase) (fs : FileSystem)
    (hist : List ExecutionResult)
    (hf : (executePhaseWithRetry p fs).1.success = false) :
    runPhases false (p :: rest) fs hist =
      (some ("Phase " ++ p.name ++ " failed: " ++
          (executePhaseWithRetry p fs).1.message),
        (executePhaseWithRetry p fs).2.1,
        hist ++ [(executePhaseWithRetry p fs).1]) := by
  simp [runPhases, hf]

/-- **C4 amended.** When a phase exhausts all its attempts, a failure result
is appended to the history; there is no `required` attribute — what happens
next is governed by the configuration alone: if
`continueOnValidationFailure` is false the run aborts (the remaining phases
never execute) and ends `RolledBack` exactly when both `rollbackOnFailure`
and `backupEnabled` are set, `Failed` otherwise; if
`continueOnValidationFailure` is true, execution continues with the next
phase (the run may still reach validation). -/
theorem c4_amended_failure_handling (cfg : OrchestrationConfig)
    (cwd bp : String) (bfiles : List String) (p : ExecutionPhase)
    (rest : List ExecutionPhase) (tsc : List String) (fs0 : FileSystem)
    (hfail : ∀ i fs', outcomeFails (p.executeFunction i fs') = true) :
    (cfg.continueOnValidationFailure = false →
      (orchestrate cfg cwd bp bfiles (p :: rest) tsc fs0).history.length = 1 ∧
      ((orchestrate cfg cwd bp bfiles (p :: rest) tsc fs0).history.headD
          { success := true, message := "" }).success = false ∧
      (orchestrate cfg cwd bp bfiles (p :: rest) tsc fs0).terminal =
        (if cfg.rollbackOnFailure && cfg.backupEnabled then
          TerminalState.RolledBack else TerminalState.Failed)) ∧
    (cfg.continueOnValidationFailure = true →
      ∀ fs hist,
        runPhases true (p :: rest) fs hist =
          runPhases true rest (executePhaseWithRetry p fs).2.1
            (hist ++ [(executePhaseWithRetry p fs).1]) ∧
        (executePhaseWithRetry p fs).1.success = false) := by
  have hfs : ∀ fs, (executePhaseWithRetry p fs).1.success = false := fun fs =>
    (retryGo_always_fails p.name p.executeFunction hfail
      (p.retries + 1) 1 fs 0).1
  constructor
  · intro hcont
    simp only [orchestrate, hcont]
    rw [runPhases_cons_abort p rest _ [] (hfs _)]
    by_cases hrb : cfg.rollbackOnFailure && cfg.backupEnabled <;>
      simp [hrb, hfs]
  · intro _ fs hist
    exact ⟨runPhases_cons_continue p rest fs hist, hfs fs⟩

/-- Witness for C4 amended, on the concrete always-failing phase with the
default configuration (`continueOnValidationFailure: false`,
`rollbackOnFailure` and `backupEnabled` true): one failure entry and
terminal state RolledBack. -/
theorem c4_amended_failure_handling_witness :
    (orchestrate defaultCfg "/proj" exBackupPath [] [c4failPhase] []
        emptyFs).history.length = 1 ∧
    (orchestrate defaultCfg "/proj" exBackupPath [] [c4failPhase] []
        emptyFs).terminal = TerminalState.RolledBack := by
  have h := (c4_amended_failure_handling defaultCfg "/proj" exBackupPath []
    c4failPhase [] [] emptyFs (fun _ _ => rfl)).1 rfl
  exact ⟨h.1, by rw [h.2.2]; decide⟩

/-- **C5 amended.** A full run over zero diagnostics returns success with
`fixedCount = 0`, an empty history and terminal state Completed, and copies
no file — but when `backupEnabled` is set and it is not a dry run,
`createBackup` still creates the (empty) backup directory; only with
`backupEnabled: false` or `dryRun: true` is the file system left completely
untouched. -/
theorem c5_amended_empty_run (cfg : OrchestrationConfig) (cwd bp : String)
    (tsc : List String) (fs0 : FileSystem) :
    (executeOrchestration cfg cwd bp [] tsc fs0).result.success = true ∧
    (executeOrchestration cfg cwd bp [] tsc fs0).result.fixedCount =
      some 0 ∧
    (executeOrchestration cfg cwd bp [] tsc fs0).history = [] ∧
    (executeOrchestration cfg cwd bp [] tsc fs0).terminal =
      TerminalState.Completed ∧
    (executeOrchestration cfg cwd bp [] tsc fs0).fs.files = fs0.files ∧
    (executeOrchestration cfg cwd bp [] tsc fs0).fs.dirs =
      (if cfg.backupEnabled && !cfg.dryRun then (mkdirp bp fs0).dirs
        else fs0.dirs) := by
  by_cases hb : cfg.backupEnabled <;> by_cases hd : cfg.dryRun <;>
    simp [executeOrchestration, orchestrate, createExecutionPhases,
      groupErrorsByRootCause, sortByPriority, runPhases, createBackup,
      dedupFirst, dedupFirst.go, sumFixed, hb, hd, mkdirp]

/-- The validation loop emits at least one result on a non-empty check
list. -/
theorem valLoop_ne_nil (exec : CheckExec) (c : ValidationCheck)
    (rest : List ValidationCheck) : valLoop exec (c :: rest) ≠ [] := by
  simp only [valLoop]
  split <;> simp

/-- `getLastD` of a cons ignores the default when the tail is non-empty. -/
theorem getLastD_cons_of_ne_nil (r : ValidationResult)
    (L : List ValidationResult) (hL : L ≠ []) (d : ValidationResult) :
    (r :: L).getLastD d = L.getLastD d := by
  cases L with
  | nil => exact absurd rfl hL
  | cons x xs => simp [List.getLastD_cons]

/-- The validation loop on `c :: rest` when `c` is a required failure: the
loop records just that failure. -/
theorem valLoop_cons_stop (exec : CheckExec) (c : ValidationCheck)
    (rest : List ValidationCheck)
    (h : (!(runValidationCheck exec c).success && c.required) = true) :
    valLoop exec (c :: rest) = [runValidationCheck exec c] := by
  simp only [valLoop, h, if_true]

/-- The validation loop on `c :: rest` when `c` is not a required failure:
the loop records `c`'s result and continues. -/
theorem valLoop_cons_go (exec : CheckExec) (c : ValidationCheck)
    (rest : List ValidationCheck)
    (h : (!(runValidationCheck exec c).success && c.required) = false) :
    valLoop exec (c :: rest) =
      runValidationCheck exec c :: valLoop exec rest := by
  simp only [valLoop, h, Bool.false_eq_true, if_false]

/-- Structure of the list of results produced by the validation loop: it
covers a prefix of the checks in order, no result before the last is a
required failure, and either every check ran or the loop was cut short by a
required failure recorded as its last result. -/
theorem valLoop_spec (exec : CheckExec) (checks : List ValidationCheck) :
    (valLoop exec checks).map (fun r => r.check) =
      checks.take (valLoop exec checks).length ∧
    ((valLoop exec checks).dropLast.all
      (fun r => r.success || !r.check.required)) = true ∧
    ((valLoop exec checks).length = checks.length ∨
      (((valLoop exec checks).getLastD dummyVR).success = false ∧
       ((valLoop exec checks).getLastD dummyVR).check.required = true)) := by
  induction checks with
  | nil => simp [valLoop]
  | cons c rest ih =>
      cases hstop : (!(runValidationCheck exec c).success && c.required) with
      | true =>
          have hs : (runValidationCheck exec c).success = false := by
            have h := hstop
            simp only [Bool.and_eq_true, Bool.not_eq_true'] at h
            exact h.1
          have hreq : c.required = true := by
            have h := hstop
            simp only [Bool.and_eq_true] at h
            exact h.2
          rw [valLoop_cons_stop exec c rest hstop]
          refine ⟨rfl, rfl, Or.inr ⟨?_, ?_⟩⟩
          · simpa [List.getLastD_cons] using hs
          · simpa [List.getLastD_cons, runValidationCheck] using hreq
      | false =>
          obtain ⟨ih1, ih2, ih3⟩ := ih
          have hcont :
              ((runValidationCheck exec c).success || !c.required) = true := by
            cases hsb : (runValidationCheck exec c).success
            · cases hcr : c.required
              · simp
              · rw [hsb, hcr] at hstop; simp at hstop
            · simp
          rw [valLoop_cons_go exec c rest hstop]
          refine ⟨?_, ?_, ?_⟩
          · simpa [List.take_succ_cons, runValidationCheck] using ih1
          · cases hL : valLoop exec rest with
            | nil => simp
            | cons x xs =>
                rw [hL] at ih2
                rw [List.dropLast_cons₂]
                simp only [List.all_cons, Bool.and_eq_true]
                exact ⟨hcont, ih2⟩
          · cases rest with
            | nil => left; simp [valLoop]
            | cons c' rest' =>
                rcases ih3 with h | h
                · left; simpa using h
                · right
                  have hLne := valLoop_ne_nil exec c' rest'
                  rw [getLastD_cons_of_ne_nil _ _ hLne]
                  exact h

/-- **C7.** `ValidationEngine.validate` runs the configured checks in list
order (the recorded results cover a prefix of the check list), stops after
the first failing required check (only the last recorded result can be a
required failure, and when the results do not cover every check the last
one is such a failure — skipped checks are not recorded at all), and its
`overallSuccess` equals "every executed check passed or was not
required". -/
theorem c7_validate_fail_fast (exec : CheckExec)
    (checks : List ValidationCheck) :
    ((validate exec checks).results.map (fun r => r.check) =
      checks.take (validate exec checks).results.length) ∧
    (((validate exec checks).results.dropLast.all
      (fun r => r.success || !r.check.required)) = true) ∧
    ((validate exec checks).results.length = checks.length ∨
      (((validate exec checks).results.getLastD dummyVR).success = false ∧
       ((validate exec checks).results.getLastD dummyVR).check.required =
        true)) ∧
    (validate exec checks).overallSuccess =
      (validate exec checks).results.all
        (fun r => r.success || !r.check.required) := by
  obtain ⟨h1, h2, h3⟩ := valLoop_spec exec checks
  exact ⟨h1, h2, h3, rfl⟩

/-- The recommendation list is never empty. -/
theorem generateRecommendations_pos (results : List ValidationResult) :
    0 < (generateRecommendations results).length := by
  simp only [generateRecommendations]
  cases hrecs : results.foldl recStep [] with
  | nil => simp [hrecs]
  | cons x xs => simp [hrecs]

/-- When every result succeeded, the recommendation fold contributes
nothing. -/
theorem recStep_fold_all_success (results : List ValidationResult) :
    ∀ acc, (∀ r ∈ results, r.success = true) →
      results.foldl recStep acc = acc := by
  induction results with
  | nil => intro acc _; rfl
  | cons r rs ih =>
      intro acc h
      have hr : r.success = true := h r (by simp)
      rw [List.foldl_cons]
      rw [show recStep acc r = acc by simp [recStep, hr]]
      exact ih acc fun x hx => h x (by simp [hx])

/-- **C10.** Every summary returned by `validate` satisfies
`passedChecks + failedChecks = totalChecks = results.length`, and its
recommendation list is non-empty — in particular, when every recorded check
passed, it is exactly the synthesized success message. -/
theorem c10_validation_summary_invariants (exec : CheckExec)
    (checks : List ValidationCheck) :
    (validate exec checks).passedChecks + (validate exec checks).failedChecks
      = (validate exec checks).totalChecks ∧
    (validate exec checks).totalChecks =
      (validate exec checks).results.length ∧
    0 < (validate exec checks).recommendations.length ∧
    ((validate exec checks).results.all (fun r => r.success) = false ∨
      (validate exec checks).recommendations = [allPassedRec]) := by
  refine ⟨?_, rfl, generateRecommendations_pos _, ?_⟩
  · have hle := List.length_filter_le (fun r => r.success)
      (valLoop exec checks)
    show ((valLoop exec checks).filter (fun r => r.success)).length +
      ((valLoop exec checks).length -
        ((valLoop exec checks).filter (fun r => r.success)).length) =
      (valLoop exec checks).length
    omega
  · by_cases hall : (valLoop exec checks).all (fun r => r.success) = true
    · right
      show generateRecommendations (valLoop exec checks) = [allPassedRec]
      simp only [generateRecommendations]
      rw [recStep_fold_all_success (valLoop exec checks) []
        (by simpa [List.all_eq_true] using hall)]
      simp [allPassedRec]
    · left
      show (valLoop exec checks).all (fun r => r.success) = false
      revert hall
      cases (valLoop exec checks).all (fun r => r.success) <;> simp

/-- Every built-in fix routine reports success. -/
theorem stubFix_success (cfg : OrchestrationConfig) (cause : ErrorRootCause)
    (errs : List AnalyzedError) : (stubFix cfg cause errs).success = true := by
  cases cause <;> by_cases hd : cfg.dryRun <;> simp [stubFix, hd]

/-- Under dry run every built-in fix routine reports the `Dry run:` message
for its error group. -/
theorem stubFix_dryRun_message (cfg : OrchestrationConfig)
    (hd : cfg.dryRun = true) (errs : List AnalyzedError) :
    (stubFix cfg .SYNTAX errs).message =
      "Dry run: Would fix " ++ toString errs.length ++ " syntax errors" ∧
    (stubFix cfg .IMPORT errs).message =
      "Dry run: Would fix " ++ toString errs.length ++ " import errors" ∧
    (stubFix cfg .TYPE errs).message =
      "Dry run: Would fix " ++ toString errs.length ++ " type errors" := by
  refine ⟨?_, ?_, ?_⟩ <;> simp [stubFix, hd]

/-- A phase whose fixer immediately returns a successful result finishes on
the first attempt without touching the file system. -/
theorem executePhaseWithRetry_pure (p : ExecutionPhase) (r : ExecutionResult)
    (fs : FileSystem) (hp : p.executeFunction = pureFixer r)
    (hr : r.success = true) :
    executePhaseWithRetry p fs = (r, fs, 1) := by
  simp [executePhaseWithRetry, hp, retryGo, pureFixer, hr]

/-- Membership in the stable priority insertion. -/
theorem mem_insertByPriority (p q : ExecutionPhase)
    (l : List ExecutionPhase) :
    q ∈ insertByPriority p l ↔ q = p ∨ q ∈ l := by
  induction l with
  | nil => simp [insertByPriority]
  | cons x xs ih =>
      simp only [insertByPriority]
      split
      · simp
      · simp only [List.mem_cons, ih]
        tauto

/-- The priority sort permutes but does not add or drop phases. -/
theorem mem_sortByPriority (q : ExecutionPhase) (l : List ExecutionPhase) :
    q ∈ sortByPriority l ↔ q ∈ l := by
  induction l with
  | nil => simp [sortByPriority]
  | cons x xs ih =>
      show q ∈ insertByPriority x (sortByPriority xs) ↔ _
      rw [mem_insertByPriority]
      simp only [List.mem_cons, ih]
      try tauto

/-- Every phase planned by `createExecutionPhases` carries one of the
built-in fix routines over its own error group. -/
theorem createExecutionPhases_stub (cfg : OrchestrationConfig)
    (errors : List AnalyzedError) (p : ExecutionPhase)
    (hp : p ∈ createExecutionPhases cfg errors) :
    p.executeFunction = pureFixer (stubFix cfg p.cause p.errors) := by
  simp only [createExecutionPhases] at hp
  rw [mem_sortByPriority] at hp
  rcases List.mem_append.1 hp with h | h
  · rcases List.mem_append.1 h with h' | h'
    · split at h'
      · rcases List.mem_singleton.1 h' with rfl; rfl
      · cases h'
    · split at h'
      · rcases List.mem_singleton.1 h' with rfl; rfl
      · cases h'
  · split at h
    · rcases List.mem_singleton.1 h with rfl; rfl
    · cases h

/-- The phase loop over built-in (pure, always successful) fix routines:
no file is touched, no abort happens, and the history collects exactly the
routines' reports in order. -/
theorem runPhases_stub (cfg : OrchestrationConfig) :
    ∀ (phases : List ExecutionPhase) (cont : Bool) (fs : FileSystem)
      (hist : List ExecutionResult),
      (∀ p ∈ phases,
        p.executeFunction = pureFixer (stubFix cfg p.cause p.errors)) →
      runPhases cont phases fs hist =
        (none, fs,
          hist ++ phases.map (fun p => stubFix cfg p.cause p.errors)) := by
  intro phases
  induction phases with
  | nil => intro cont fs hist _; simp [runPhases]
  | cons p rest ih =>
      intro cont fs hist h
      have hstep := executePhaseWithRetry_pure p (stubFix cfg p.cause p.errors)
        fs (h p (by simp)) (stubFix_success cfg p.cause p.errors)
      simp only [runPhases, hstep, stubFix_success, Bool.not_true,
        Bool.false_and, Bool.false_eq_true, if_false]
      rw [ih cont fs (hist ++ [stubFix cfg p.cause p.errors])
        (fun q hq => h q (by simp [hq]))]
      simp

/-- **C8.** With `dryRun = true` a full run mutates no file and creates no
backup — the final file system is exactly the initial one — while the run
still completes successfully and its history reports, per planned phase,
the dry-run result of that phase's fix routine (all successful). -/
theorem c8_dry_run_pure (cfg : OrchestrationConfig) (hdry : cfg.dryRun = true)
    (cwd bp : String) (errors : List AnalyzedError) (tsc : List String)
    (fs0 : FileSystem) :
    (executeOrchestration cfg cwd bp errors tsc fs0).fs = fs0 ∧
    (executeOrchestration cfg cwd bp errors tsc fs0).terminal =
      TerminalState.Completed ∧
    (executeOrchestration cfg cwd bp errors tsc fs0).result.success = true ∧
    (executeOrchestration cfg cwd bp errors tsc fs0).history =
      (createExecutionPhases cfg errors).map
        (fun p => stubFix cfg p.cause p.errors) ∧
    (executeOrchestration cfg cwd bp errors tsc fs0).history.all
      (fun r => r.success) = true := by
  have hrun := runPhases_stub cfg (createExecutionPhases cfg errors)
    cfg.continueOnValidationFailure fs0 []
    (fun p hp => createExecutionPhases_stub cfg errors p hp)
  simp only [executeOrchestration, orchestrate]
  rw [show (if cfg.backupEnabled = true then
      (createBackup cfg bp (errors.map (fun e => e.file)) fs0).2 else fs0) =
      fs0 from by simp [createBackup, hdry]]
  rw [hrun]
  refine ⟨rfl, rfl, rfl, rfl, ?_⟩
  simp only [List.nil_append, List.all_eq_true]
  intro r hr
  rcases List.mem_map.1 hr with ⟨q, _, rfl⟩
  exact stubFix_success cfg q.cause q.errors

/-- Witness for C8: a concrete dry run over one syntax error leaves the
concrete project untouched and completes. -/
theorem c8_dry_run_pure_witness :
    (executeOrchestration c8cfg "/proj" exBackupPath [errOfCause .SYNTAX] []
      c1fs).fs = c1fs ∧
    (executeOrchestration c8cfg "/proj" exBackupPath [errOfCause .SYNTAX] []
      c1fs).terminal = TerminalState.Completed := by
  have h := c8_dry_run_pure c8cfg rfl "/proj" exBackupPath
    [errOfCause .SYNTAX] [] c1fs
  exact ⟨h.1, h.2.1⟩

/-- The fuel-passing digit printer computes the same list for any
sufficient fuel, with the accumulator appended. -/
theorem digitsReprAux_spec :
    ∀ (n fuel : Nat) (acc : List Char), n ≤ fuel →
      digitsReprAux fuel n acc = digitsRepr n ++ acc := by
  intro n
  induction n using Nat.strong_induction_on with
  | _ n ih =>
      intro fuel acc h
      by_cases h10 : n < 10
      · cases fuel with
        | zero =>
            have hn0 : n = 0 := by omega
            subst hn0
            simp [digitsReprAux, digitsRepr]
        | succ f =>
            cases n with
            | zero => simp [digitsReprAux, digitsRepr]
            | succ m => simp [digitsReprAux, digitsRepr, h10]
      · obtain ⟨f, rfl⟩ : ∃ f, fuel = f + 1 := ⟨fuel - 1, by omega⟩
        have hdiv : n / 10 < n := Nat.div_lt_self (by omega) (by omega)
        obtain ⟨m, rfl⟩ : ∃ m, n = m + 1 := ⟨n - 1, by omega⟩
        simp only [digitsReprAux, if_neg h10]
        rw [ih ((m + 1) / 10) hdiv f _ (by omega)]
        rw [show digitsRepr (m + 1) =
          digitsReprAux m ((m + 1) / 10)
            [Char.ofNat (48 + (m + 1) % 10)] from by
          simp only [digitsRepr, digitsReprAux, if_neg h10]]
        rw [ih ((m + 1) / 10) hdiv m _ (by omega)]
        simp

/-- Decimal digit characters are digits. -/
theorem digitChar_isDigit (k : Nat) (hk : k < 10) :
    (Char.ofNat (48 + k)).isDigit = true := by
  interval_cases k <;> decide

/-- Code point of a decimal digit character. -/
theorem digitChar_toNat (k : Nat) (hk : k < 10) :
    (Char.ofNat (48 + k)).toNat = 48 + k := by
  interval_cases k <;> decide

/-- `digitsRepr` below 10 is the single digit character. -/
theorem digitsRepr_lt10 (n : Nat) (h : n < 10) :
    digitsRepr n = [Char.ofNat (48 + n)] := by
  cases n with
  | zero => simp [digitsRepr, digitsReprAux]
  | succ m => simp [digitsRepr, digitsReprAux, h]

/-- `digitsRepr` at 10 or above: digits of the quotient then the last
digit. -/
theorem digitsRepr_ge10 (n : Nat) (h : ¬n < 10) :
    digitsRepr n =
      digitsRepr (n / 10) ++ [Char.ofNat (48 + n % 10)] := by
  obtain ⟨m, rfl⟩ : ∃ m, n = m + 1 := ⟨n - 1, by omega⟩
  have hdiv : (m + 1) / 10 < m + 1 := Nat.div_lt_self (by omega) (by omega)
  rw [show digitsRepr (m + 1) =
    digitsReprAux m ((m + 1) / 10) [Char.ofNat (48 + (m + 1) % 10)] from by
      simp only [digitsRepr, digitsReprAux, if_neg h]]
  rw [digitsReprAux_spec ((m + 1) / 10) m _ (by omega)]

/-- Every character of a printed number is a digit. -/
theorem digitsRepr_all_digit (n : Nat) :
    ∀ c ∈ digitsRepr n, c.isDigit = true := by
  induction n using Nat.strong_induction_on with
  | _ n ih =>
      by_cases h10 : n < 10
      · rw [digitsRepr_lt10 n h10]
        intro c hc
        rw [List.mem_singleton.1 hc]
        exact digitChar_isDigit n h10
      · rw [digitsRepr_ge10 n h10]
        intro c hc
        rcases List.mem_append.1 hc with h | h
        · exact ih (n / 10) (Nat.div_lt_self (by omega) (by omega)) c h
        · rw [List.mem_singleton.1 h]
          exact digitChar_isDigit (n % 10) (Nat.mod_lt _ (by omega))

/-- A printed number is never empty. -/
theorem digitsRepr_ne_nil (n : Nat) : digitsRepr n ≠ [] := by
  by_cases h10 : n < 10
  · rw [digitsRepr_lt10 n h10]; simp
  · rw [digitsRepr_ge10 n h10]; simp

/-- A non-digit character never occurs in a printed number. -/
theorem not_mem_digitsRepr (c : Char) (hc : c.isDigit = false) (n : Nat) :
    c ∉ digitsRepr n := by
  intro hm
  rw [digitsRepr_all_digit n c hm] at hc
  cases hc

/-- Folding the digit accumulator over a printed number. -/
theorem parseDigitsVal_foldl (n : Nat) :
    ∀ a, List.foldl (fun acc c => acc * 10 + (c.toNat - 48)) a
      (digitsRepr n) = a * 10 ^ (digitsRepr n).length + n := by
  induction n using Nat.strong_induction_on with
  | _ n ih =>
      intro a
      by_cases h10 : n < 10
      · rw [digitsRepr_lt10 n h10]
        simp [digitChar_toNat n h10]
      · rw [digitsRepr_ge10 n h10]
        rw [List.foldl_append]
        rw [ih (n / 10) (Nat.div_lt_self (by omega) (by omega)) a]
        have hmod : (Char.ofNat (48 + n % 10)).toNat = 48 + n % 10 :=
          digitChar_toNat (n % 10) (Nat.mod_lt _ (by omega))
        simp only [List.foldl_cons, List.foldl_nil, hmod,
          List.length_append, List.length_singleton]
        have hdm : 10 * (n / 10) + n % 10 = n := Nat.div_add_mod n 10
        calc (a * 10 ^ (digitsRepr (n / 10)).length + n / 10) * 10 +
              (48 + n % 10 - 48)
            = a * (10 ^ (digitsRepr (n / 10)).length * 10) +
              (10 * (n / 10) + n % 10) := by ring_nf; omega
          _ = a * 10 ^ ((digitsRepr (n / 10)).length + 1) + n := by
              rw [hdm, pow_succ]

/-- `parseInt` inverts number printing. -/
theorem parseDigitsVal_digitsRepr (n : Nat) :
    parseDigitsVal (digitsRepr n) = n := by
  have h := parseDigitsVal_foldl n 0
  simpa [parseDigitsVal] using h

/-- Splitting never yields the empty list of parts. -/
theorem splitOnChar_ne_nil (sep : Char) (cs : List Char) :
    splitOnChar sep cs ≠ [] := by
  induction cs with
  | nil => simp [splitOnChar]
  | cons c rest ih =>
      cases h : splitOnChar sep rest with
      | nil => exact absurd h ih
      | cons l ls =>
          simp only [splitOnChar, h]
          split <;> simp

/-- A separator-free list splits into itself. -/
theorem splitOnChar_no_sep (sep : Char) (l : List Char) (h : sep ∉ l) :
    splitOnChar sep l = [l] := by
  induction l with
  | nil => rfl
  | cons c cs ih =>
      have hc : ¬c = sep := fun e => h (by simp [e])
      have ih' : splitOnChar sep cs = [cs] := ih fun hm => h (by simp [hm])
      simp [splitOnChar, ih', hc]

/-- Splitting after a separator-free prefix peels that prefix off. -/
theorem splitOnChar_append_sep (sep : Char) (l rest : List Char)
    (h : sep ∉ l) :
    splitOnChar sep (l ++ sep :: rest) = l :: splitOnChar sep rest := by
  induction l with
  | nil =>
      cases hrest : splitOnChar sep rest with
      | nil => exact absurd hrest (splitOnChar_ne_nil sep rest)
      | cons l0 ls => simp [splitOnChar, hrest]
  | cons c l' ih =>
      have hc : ¬c = sep := fun e => h (by simp [e])
      rw [List.cons_append]
      have ih' := ih fun hm => h (by simp [hm])
      cases hrec : splitOnChar sep (l' ++ sep :: rest) with
      | nil => exact absurd hrec (splitOnChar_ne_nil sep _)
      | cons l0 ls =>
          rw [hrec] at ih'
          injection ih' with h1 h2
          simp only [splitOnChar, hrec, hc, if_false]
          rw [h1, h2]

/-- Splitting inverts joining when every part is separator-free. -/
theorem splitOnChar_joinChar (sep : Char) :
    ∀ ls : List (List Char), ls ≠ [] → (∀ l ∈ ls, sep ∉ l) →
      splitOnChar sep (joinChar sep ls) = ls := by
  intro ls
  induction ls with
  | nil => intro h; exact absurd rfl h
  | cons l ls' ih =>
      intro _ hmem
      cases ls' with
      | nil =>
          show splitOnChar sep l = [l]
          exact splitOnChar_no_sep sep l (hmem l (by simp))
      | cons l₂ ls'' =>
          show splitOnChar sep (l ++ sep :: joinChar sep (l₂ :: ls'')) = _
          rw [splitOnChar_append_sep sep l _ (hmem l (by simp))]
          rw [ih (by simp) fun x hx => hmem x (by simp [hx])]

/-- A list starts with itself. -/
theorem startsWithSeq_self_append (pat rest : List Char) :
    startsWithSeq pat (pat ++ rest) = true := by
  induction pat with
  | nil => rfl
  | cons p ps ih => simp [startsWithSeq, ih]

/-- A pattern occurring as a contiguous run is found by `includesSeq`. -/
theorem includesSeq_append (pat a b : List Char) :
    includesSeq pat (a ++ (pat ++ b)) = true := by
  induction a with
  | nil =>
      cases pat with
      | nil =>
          cases b with
          | nil => rfl
          | cons c cs => simp [includesSeq, startsWithSeq]
      | cons p ps =>
          simp [includesSeq, startsWithSeq, startsWithSeq_self_append]
  | cons c a' ih =>
      rw [List.cons_append]
      show (startsWithSeq pat _ || includesSeq pat (a' ++ (pat ++ b))) = true
      rw [ih, Bool.or_true]

/-- `spanDigits` splits an all-digit run followed by a non-digit exactly at
that boundary. -/
theorem spanDigits_exact (xs : List Char) (c : Char) (rest : List Char)
    (hx : ∀ a ∈ xs, a.isDigit = true) (hc : c.isDigit = false) :
    spanDigits (xs ++ c :: rest) = (xs, c :: rest) := by
  induction xs with
  | nil => simp [spanDigits, hc]
  | cons x xs' ih =>
      have hx0 : x.isDigit = true := hx x (by simp)
      have ih' := ih fun a ha => hx a (by simp [ha])
      simp [spanDigits, hx0, ih']

/-- A code of shape `TS<digits>`. -/
theorem codeOkTS_shape (c : List Char) (h : codeOkTS c = true) :
    ∃ ds, c = 'T' :: 'S' :: ds ∧ ds ≠ [] ∧ ∀ a ∈ ds, a.isDigit = true := by
  match c with
  | [] => simp [codeOkTS] at h
  | [a] => simp [codeOkTS] at h
  | a :: b :: ds =>
      simp only [codeOkTS, Bool.and_eq_true, beq_iff_eq] at h
      obtain ⟨⟨⟨ha, hb⟩, hne⟩, hdig⟩ := h
      refine ⟨ds, by rw [ha, hb], by simpa using hne, ?_⟩
      simpa [List.all_eq_true] using hdig

/-- Stripping a literal prefix off itself leaves the rest. -/
theorem stripPrefixSeq_self (pat : List Char) :
    ∀ rest, stripPrefixSeq pat (pat ++ rest) = some rest := by
  induction pat with
  | nil => intro rest; rfl
  | cons p ps ih => intro rest; simp [stripPrefixSeq, ih]

/-- A character that the regex `.` rejects never occurs in an all-dot
list. -/
theorem not_mem_of_all_dot (c : Char) (hc : isDotChar c = false)
    (l : List Char) (hl : l.all isDotChar = true) : c ∉ l := by
  intro hm
  rw [List.all_eq_true] at hl
  rw [hl c hm] at hc
  cases hc

/-- `matchTail` recognizes exactly the formatted tail
`<line>,<col>): error TS<digits>: <message>`. -/
theorem matchTail_format (line col : Nat) (cds msg : List Char)
    (hcne : cds ≠ []) (hcd : ∀ a ∈ cds, a.isDigit = true) (hmsg : msg ≠ [])
    (hmsgDot : msg.all isDotChar = true) :
    matchTail (digitsRepr line ++ (',' :: (digitsRepr col ++ (')' :: ':' ::
        ' ' :: 'e' :: 'r' :: 'r' :: 'o' :: 'r' :: ' ' :: 'T' :: 'S' ::
        (cds ++ (':' :: ' ' :: msg)))))) =
      some (digitsRepr line, digitsRepr col, cds, msg) := by
  have hline : (digitsRepr line).isEmpty = false := by
    cases h : digitsRepr line with
    | nil => exact absurd h (digitsRepr_ne_nil line)
    | cons x xs => rfl
  have hcol : (digitsRepr col).isEmpty = false := by
    cases h : digitsRepr col with
    | nil => exact absurd h (digitsRepr_ne_nil col)
    | cons x xs => rfl
  have hcdsE : cds.isEmpty = false := by
    cases h : cds with
    | nil => exact absurd h hcne
    | cons x xs => rfl
  have hmsgE : msg.isEmpty = false := by
    cases h : msg with
    | nil => exact absurd h hmsg
    | cons x xs => rfl
  have hstrip1 : stripPrefixSeq [','] (',' :: (digitsRepr col ++ (')' ::
      ':' :: ' ' :: 'e' :: 'r' :: 'r' :: 'o' :: 'r' :: ' ' :: 'T' :: 'S' ::
      (cds ++ (':' :: ' ' :: msg))))) =
      some (digitsRepr col ++ (')' :: ':' :: ' ' :: 'e' :: 'r' :: 'r' ::
        'o' :: 'r' :: ' ' :: 'T' :: 'S' :: (cds ++ (':' :: ' ' :: msg)))) :=
    stripPrefixSeq_self [','] _
  have hstrip2 : stripPrefixSeq litErrorTS (')' :: ':' :: ' ' :: 'e' ::
      'r' :: 'r' :: 'o' :: 'r' :: ' ' :: 'T' :: 'S' ::
      (cds ++ (':' :: ' ' :: msg))) = some (cds ++ (':' :: ' ' :: msg)) :=
    stripPrefixSeq_self litErrorTS _
  have hstrip3 : stripPrefixSeq litColonSpace (':' :: ' ' :: msg) =
      some msg :=
    stripPrefixSeq_self litColonSpace msg
  simp only [matchTail]
  rw [spanDigits_exact (digitsRepr line) ',' _ (digitsRepr_all_digit line)
    (by decide)]
  simp only [hline, Bool.false_eq_true, if_false, hstrip1]
  rw [spanDigits_exact (digitsRepr col) ')' _ (digitsRepr_all_digit col)
    (by decide)]
  simp only [hcol, Bool.false_eq_true, if_false, hstrip2]
  rw [spanDigits_exact cds ':' _ hcd (by decide)]
  simp only [hcdsE, Bool.false_eq_true, if_false, hstrip3, hmsgE, hmsgDot,
    if_true]

/-- A region without `(` offers the backtracking search no split point. -/
theorem matchFrom_no_paren (rest : List Char) (h : '(' ∉ rest) :
    ∀ pre, matchFrom pre rest = none := by
  induction rest with
  | nil => intro pre; rfl
  | cons c rest' ih =>
      intro pre
      have hc : ¬c = '(' := fun e => h (by simp [e])
      have ih' := ih (fun hm => h (by simp [hm])) (pre ++ [c])
      simp [matchFrom, ih', hc]

/-- When the line contains a single `(` (none in the prefix, none in the
tail), the backtracking search matches exactly there. -/
theorem matchFrom_split (tail : List Char)
    (t : List Char × List Char × List Char × List Char)
    (htail : matchTail tail = some t) (hnp : '(' ∉ tail) :
    ∀ (file pre : List Char), '(' ∉ file →
      (pre ++ file).all isDotChar = true → pre ++ file ≠ [] →
      matchFrom pre (file ++ '(' :: tail) = some (mkParsed (pre ++ file) t) := by
  intro file
  induction file with
  | nil =>
      intro pre _ hdot hne
      have hpre : pre.isEmpty = false := by
        cases h : pre with
        | nil => rw [h] at hne; simp at hne
        | cons x xs => rfl
      have hpredot : pre.all isDotChar = true := by simpa using hdot
      have hrec := matchFrom_no_paren tail hnp (pre ++ ['('])
      simp [matchFrom, hrec, hpre, hpredot, htail]
  | cons c file' ih =>
      intro pre hcf hdot hne
      have h' : '(' ∉ file' := fun hh => hcf (by simp [hh])
      have hdot' : ((pre ++ [c]) ++ file').all isDotChar = true := by
        rw [List.all_eq_true] at hdot ⊢
        intro x hx
        apply hdot
        simp only [List.mem_append, List.mem_cons, List.mem_singleton,
          List.not_mem_nil, or_false] at hx ⊢
        tauto
      have ih' := ih (pre ++ [c]) h' hdot' (by simp)
      rw [List.cons_append]
      show (match matchFrom (pre ++ [c]) (file' ++ '(' :: tail) with
        | some d => some d
        | none => if c = '(' then if pre.isEmpty then none
            else if pre.all isDotChar then
              (matchTail (file' ++ '(' :: tail)).map (mkParsed pre)
            else none
          else none) = _
      rw [ih']
      simp [List.append_assoc]

/-- Parsing one formatted line of a hygienic diagnostic recovers it
exactly. -/
theorem parseLine_format (d : TsDiag) (h : GoodDiag d) :
    parseLine (formatDiag d) = some d := by
  obtain ⟨hf1, hfd, hf3, hf4, hm1, hmd, hm3, hm4, hcode, hlin, hcol⟩ := h
  obtain ⟨cds, hceq, hcne, hcd⟩ := codeOkTS_shape d.code hcode
  have hform : formatDiag d = d.file ++ '(' :: (digitsRepr d.line ++
      (',' :: (digitsRepr d.column ++ (')' :: ':' :: ' ' :: 'e' :: 'r' ::
        'r' :: 'o' :: 'r' :: ' ' :: 'T' :: 'S' ::
        (cds ++ (':' :: ' ' :: d.message)))))) := by
    simp [formatDiag, hceq]
  have hinc : includesSeq errorTsPat (formatDiag d) = true := by
    have hsplit : formatDiag d = (d.file ++ '(' :: (digitsRepr d.line ++
        (',' :: (digitsRepr d.column ++ [')'])))) ++
        (errorTsPat ++ (cds ++ (':' :: ' ' :: d.message))) := by
      simp [hform, errorTsPat]
    rw [hsplit]
    exact includesSeq_append errorTsPat _ _
  have hnp : '(' ∉ (digitsRepr d.line ++
      (',' :: (digitsRepr d.column ++ (')' :: ':' :: ' ' :: 'e' :: 'r' ::
        'r' :: 'o' :: 'r' :: ' ' :: 'T' :: 'S' ::
        (cds ++ (':' :: ' ' :: d.message)))))) := by
    simp only [List.mem_append, List.mem_cons, not_or]
    and_intros <;>
      first
        | decide
        | exact not_mem_digitsRepr '(' (by decide) d.line
        | exact not_mem_digitsRepr '(' (by decide) d.column
        | exact hm3
        | (intro hmem; exact absurd (hcd '(' hmem) (by decide))
  have htail := matchTail_format d.line d.column cds d.message hcne hcd hm1
    hmd
  have hmatch := matchFrom_split _ _ htail hnp d.file [] hf3
    (by simpa using hfd) (by simpa using hf1)
  unfold parseLine
  rw [hinc, if_pos rfl, hform]
  rw [show ([] : List Char) ++ d.file = d.file from rfl] at hmatch
  rw [hmatch]
  have : mkParsed d.file (digitsRepr d.line, digitsRepr d.column, cds,
      d.message) = d := by
    simp [mkParsed, hf4, hm4, parseDigitsVal_digitsRepr, ← hceq]
  rw [this]

/-- Formatted hygienic diagnostics contain no newline. -/
theorem formatDiag_no_newline (d : TsDiag) (h : GoodDiag d) :
    '\n' ∉ formatDiag d := by
  obtain ⟨hf1, hfd, hf3, hf4, hm1, hmd, hm3, hm4, hcode, hlin, hcol⟩ := h
  obtain ⟨cds, hceq, hcne, hcd⟩ := codeOkTS_shape d.code hcode
  have hf2 : '\n' ∉ d.file := not_mem_of_all_dot '\n' (by decide) d.file hfd
  have hm2 : '\n' ∉ d.message :=
    not_mem_of_all_dot '\n' (by decide) d.message hmd
  intro hm
  rw [show formatDiag d = d.file ++ '(' :: (digitsRepr d.line ++
      (',' :: (digitsRepr d.column ++ (')' :: ':' :: ' ' :: 'e' :: 'r' ::
        'r' :: 'o' :: 'r' :: ' ' :: 'T' :: 'S' ::
        (cds ++ (':' :: ' ' :: d.message)))))) from by
    simp [formatDiag, hceq]] at hm
  revert hm
  show '\n' ∉ _
  simp only [List.mem_append, List.mem_cons, not_or]
  and_intros <;>
    first
      | decide
      | exact hf2
      | exact hm2
      | exact not_mem_digitsRepr '\n' (by decide) d.line
      | exact not_mem_digitsRepr '\n' (by decide) d.column
      | (intro hmem; exact absurd (hcd '\n' hmem) (by decide))

/-- Parsing the formatted lines of hygienic diagnostics, line by line. -/
theorem filterMap_parseLine_format (l : List TsDiag)
    (h : ∀ d ∈ l, GoodDiag d) :
    (l.map formatDiag).filterMap parseLine = l := by
  induction l with
  | nil => rfl
  | cons d l' ih =>
      simp only [List.map_cons, List.filterMap_cons,
        parseLine_format d (h d (by simp))]
      rw [ih fun x hx => h x (by simp [hx])]

/-- **C6 counterexample.** One synthetic diagnostic with the alphanumeric
code `E7`, formatted per the grammar, is recovered as zero records — the
parser requires codes of the shape `TS<digits>` (both in its
`includes(': error TS')` pre-filter and in its regex), so the claim's
round trip fails for general alphanumeric codes. -/
theorem c6_counterexample_non_ts_code :
    (parseErrors (formatDiags [c6bad])).length = 0 := by
  decide

/-- **C6 amended.** For every list of synthetic diagnostics whose codes
have the `TS<digits>` shape, whose paths and messages are non-empty,
free of `(` and of the line terminators the regex `.` rejects (LF, CR,
U+2028, U+2029), and invariant under the JS `trim`, and whose line and
column numbers stay below `2 ^ 53` (where `parseInt` is exact),
formatting one per line and parsing recovers exactly the original
records — file, line, column, code and message — while anything else on a
line-by-line basis is skipped without aborting the parse. -/
theorem c6_amended_roundtrip (ds : List TsDiag)
    (h : ∀ d ∈ ds, GoodDiag d) :
    parseErrors (formatDiags ds) = ds := by
  cases ds with
  | nil => decide
  | cons d0 ds0 =>
      show (splitOnChar '\n'
        (joinChar '\n' ((d0 :: ds0).map formatDiag))).filterMap parseLine =
        d0 :: ds0
      rw [splitOnChar_joinChar '\n' ((d0 :: ds0).map formatDiag) (by simp)
        (by
          intro l hl
          rcases List.mem_map.1 hl with ⟨d, hd, rfl⟩
          exact formatDiag_no_newline d (h d hd))]
      exact filterMap_parseLine_format (d0 :: ds0) h

/-- Witness for C6 amended: two concrete hygienic diagnostics round-trip
exactly. -/
theorem c6_amended_roundtrip_witness :
    parseErrors (formatDiags [c6d1, c6d2]) = [c6d1, c6d2] :=
  c6_amended_roundtrip [c6d1, c6d2] (by decide)

end ErrorResolution
